import Mathlib

/-!
Verification of the move-legality and game-state engine of a chess variant
(`ChessVar.py`).  The engine works on Python strings such as "a1": squares are
strings, the board is a dict from square strings to piece objects, and all
geometry goes through `ord(square[0])` and `int(square[1])`.

The shallow embedding below mirrors that faithfully:
* Python strings are Lean `String`s; `s[i]` is `idx s i`, which is `none` when
  the index is out of range (an `IndexError`);
* `int(c)` on a one-character string is `pyInt c`, `none` when the character is
  not a decimal digit (a `ValueError`);
* every function that can raise returns an `Option`; `none` means the Python
  code raised an exception on that input;
* the board dict is an association list in insertion order; `boardSet`
  overwrites in place (as Python dict assignment keeps the original slot) and
  `boardDel` removes the key, both preserving the order of the other entries.

`ChessVar.can_make_move` recurses through `results_in_check` only with
`hypothetical_position = True`, and that inner call does not recurse further.
The embedding therefore unfolds the flag: `can_move_hyp` is the
`hypothetical_position = True` behaviour, `results_in_check` is built on it,
and `ChessVar.can_make_move` with the flag `false` adds the turn guard and the
check guard on top.  `can_make_move_true_eq` records that the `true` mode of
the flagged function coincides with `can_move_hyp`.
-/

namespace ChessVariant

/-- Python `ord c` for a one-character string. -/
def pyOrd (c : Char) : Nat := c.toNat

/-- Python `int(c)` on a one-character string: the digit value, or a
`ValueError` (`none`) when `c` is not a decimal digit. -/
def pyInt (c : Char) : Option Nat :=
  if 48 ≤ c.toNat ∧ c.toNat ≤ 57 then some (c.toNat - 48) else none

/-- Python `s[i]`: `none` is an `IndexError`. -/
def idx (s : String) (i : Nat) : Option Char := s.data.get? i

/-- Absolute difference, `abs (a - b)` on Python ints restricted to naturals. -/
def adiff (a b : Nat) : Nat := max a b - min a b

/-- Python `range(a, b)` as a list. -/
def pyRange (a b : Nat) : List Nat := (List.range (b - a)).map (a + ·)

/-- Python `str(r)` for the single-digit rank numbers that occur here. -/
def digitChar (n : Nat) : Char := Char.ofNat (48 + n)

/-- Two-character square string built from a file code point and a rank digit,
the canonical rendering `chr f + str r`. -/
def mkSq (f r : Nat) : String := String.mk [Char.ofNat f, digitChar r]

/-- Piece color, `w` or `b`. -/
inductive Color where
  | w : Color
  | b : Color
deriving DecidableEq, Repr

/-- The closed set of piece kinds of the variant. -/
inductive PieceKind where
  | king : PieceKind
  | knight : PieceKind
  | bishop : PieceKind
  | rook : PieceKind
deriving DecidableEq, Repr

/-- A piece: a kind plus a color (`Piece.__init__` stores `_color`; `_king`
and `_jumper` are derived from the subclass). -/
structure Piece where
  kind : PieceKind
  color : Color
deriving DecidableEq, Repr

/-- Mirror of `Piece.is_king`: the `_king` flag, set only by the `King` subclass. -/
def Piece.is_king (p : Piece) : Bool := p.kind = PieceKind.king

/-- Mirror of `Piece.can_jump`: the `_jumper` flag, set only by the `Knight` subclass. -/
def Piece.can_jump (p : Piece) : Bool := p.kind = PieceKind.knight

/-- Mirror of `Piece.get_color`. -/
def Piece.get_color (p : Piece) : Color := p.color

/-- Mirror of `King.valid_move`: at most one file and at most one rank of displacement. -/
def kingValidMove (current next : String) : Option Bool :=
  match idx current 0 with
  | none => none
  | some current_file =>
  match idx current 1 with
  | none => none
  | some current_rank =>
  match idx next 0 with
  | none => none
  | some next_file =>
  match idx next 1 with
  | none => none
  | some next_rank =>
  if adiff (pyOrd current_file) (pyOrd next_file) > 1 then some false
  else
    match pyInt current_rank with
    | none => none
    | some cr =>
    match pyInt next_rank with
    | none => none
    | some nr =>
    if adiff cr nr > 1 then some false else some true

/-- Python `A and B` where the right operand may raise: evaluated only when
the left operand is true. -/
def pyAnd (a : Bool) (b : Option Bool) : Option Bool :=
  if a then b else some false

/-- Mirror of `Knight.valid_move`: the three guard conditions of the source, with the
short-circuit evaluation of each `and` preserved (the rank conversion
`int(...)` only runs when the left operand of the `and` is true). -/
def knightValidMove (current next : String) : Option Bool :=
  match idx current 0 with
  | none => none
  | some current_file =>
  match idx current 1 with
  | none => none
  | some current_rank =>
  match idx next 0 with
  | none => none
  | some next_file =>
  match idx next 1 with
  | none => none
  | some next_rank =>
  let df := adiff (pyOrd current_file) (pyOrd next_file)
  let dr : Option Nat :=
    match pyInt current_rank, pyInt next_rank with
    | some a, some b => some (adiff a b)
    | _, _ => none
  match pyAnd (df ≠ 2) (dr.map (· ≠ 2)) with
  | none => none
  | some c1 =>
  if c1 then some false
  else
    match pyAnd (df = 2) (dr.map (· ≠ 1)) with
    | none => none
    | some c2 =>
    if c2 then some false
    else
      match pyAnd (df ≠ 1) (dr.map (· = 2)) with
      | none => none
      | some c3 =>
      if c3 then some false else some true

/-- Mirror of `Bishop.valid_move`: the change in file must equal the change in rank.
The source has no nonzero-displacement requirement. -/
def bishopValidMove (current next : String) : Option Bool :=
  match idx current 0 with
  | none => none
  | some current_file =>
  match idx current 1 with
  | none => none
  | some current_rank =>
  match idx next 0 with
  | none => none
  | some next_file =>
  match idx next 1 with
  | none => none
  | some next_rank =>
  match pyInt current_rank with
  | none => none
  | some cr =>
  match pyInt next_rank with
  | none => none
  | some nr =>
  if adiff (pyOrd current_file) (pyOrd next_file) ≠ adiff cr nr then some false
  else some true

/-- Mirror of `Rook.valid_move`: cannot change file and rank simultaneously.  Compares
the characters directly, no `int` conversion. -/
def rookValidMove (current next : String) : Option Bool :=
  match idx current 0 with
  | none => none
  | some current_file =>
  match idx current 1 with
  | none => none
  | some current_rank =>
  match idx next 0 with
  | none => none
  | some next_file =>
  match idx next 1 with
  | none => none
  | some next_rank =>
  if current_file ≠ next_file ∧ current_rank ≠ next_rank then some false
  else some true

/-- Dynamic dispatch of `valid_move` over the piece subclass. -/
def Piece.valid_move (p : Piece) (current next : String) : Option Bool :=
  match p.kind with
  | PieceKind.king => kingValidMove current next
  | PieceKind.knight => knightValidMove current next
  | PieceKind.bishop => bishopValidMove current next
  | PieceKind.rook => rookValidMove current next

/-- The board dict: square string to piece, in insertion order. -/
abbrev Board := List (String × Piece)

/-- Dict lookup, `board[square]` guarded by `square in board`
(`get_piece_at_square`). -/
def boardGet : Board → String → Option Piece
  | [], _ => none
  | (k, p) :: rest, s => if k = s then some p else boardGet rest s

/-- Dict assignment `board[square] = piece`: overwrites in place, appends at
the end when the key is new (Python dict insertion-order semantics). -/
def boardSet : Board → String → Piece → Board
  | [], s, p => [(s, p)]
  | (k, q) :: rest, s, p =>
    if k = s then (s, p) :: rest else (k, q) :: boardSet rest s p

/-- Dict deletion `del board[square]` (callers only delete present keys). -/
def boardDel : Board → String → Board
  | [], _ => []
  | (k, q) :: rest, s => if k = s then rest else (k, q) :: boardDel rest s

/-- Game state strings of the source. -/
inductive GState where
  | UNFINISHED : GState
  | WHITE_WON : GState
  | BLACK_WON : GState
  | TIE : GState
deriving DecidableEq, Repr

/-- The mutable fields of a `ChessVar` instance. -/
structure ChessVar where
  board : Board
  board_size : Nat
  turn : Color
  game_end_imminent : Bool
  state : GState
deriving DecidableEq, Repr

/-- Mirror of `change_turns`. -/
def Color.flip : Color → Color
  | Color.w => Color.b
  | Color.b => Color.w

/-- Mirror of `is_valid_square`: file code point in `[97, 97 + board_size - 1]`, rank in
`[1, board_size]`.  The file test runs first; when it already fails, the `or`
short-circuits and the rank characters are never touched, so an out-of-range
file never raises.  Otherwise `square[1]` may raise an `IndexError` and
`int(square[1])` a `ValueError`. -/
def ChessVar.is_valid_square (g : ChessVar) (square : String) : Option Bool :=
  match idx square 0 with
  | none => none
  | some c0 =>
    if ¬(97 ≤ pyOrd c0 ∧ pyOrd c0 ≤ 97 + g.board_size - 1) then some false
    else
      match idx square 1 with
      | none => none
      | some c1 =>
        match pyInt c1 with
        | none => none
        | some r => if ¬(1 ≤ r ∧ r ≤ g.board_size) then some false else some true

/-- Mirror of `get_squares_between`: the squares strictly between two aligned squares.
Rank-aligned and file-aligned paths are always produced in ascending
coordinate order (`range(min+1, max)`); only the diagonal branch reverses its
coordinate lists to follow the direction of travel. -/
def get_squares_between (curr_square new_square : String) : Option (List String) :=
  match idx curr_square 0 with
  | none => none
  | some c0 =>
  match idx new_square 0 with
  | none => none
  | some n0 =>
  match idx curr_square 1 with
  | none => none
  | some c1 =>
  match idx new_square 1 with
  | none => none
  | some n1 =>
  let curr_file := pyOrd c0
  let new_file := pyOrd n0
  match pyInt c1 with
  | none => none
  | some curr_rank =>
  match pyInt n1 with
  | none => none
  | some new_rank =>
  let delta_file := adiff curr_file new_file
  let delta_rank := adiff curr_rank new_rank
  if delta_file = 0 then
    some ((pyRange (min curr_rank new_rank + 1) (max curr_rank new_rank)).map
      (fun nums => String.mk [Char.ofNat curr_file, digitChar nums]))
  else if delta_rank = 0 then
    some ((pyRange (min curr_file new_file + 1) (max curr_file new_file)).map
      (fun chars => String.mk [Char.ofNat chars, digitChar curr_rank]))
  else if delta_file = delta_rank then
    let nums0 := (pyRange (min curr_rank new_rank + 1) (max curr_rank new_rank)).map digitChar
    let nums := if new_rank < curr_rank then nums0.reverse else nums0
    let chars0 := (pyRange (min curr_file new_file + 1) (max curr_file new_file)).map Char.ofNat
    let chars := if new_file < curr_file then chars0.reverse else chars0
    some (List.zipWith (fun c n => String.mk [c, n]) chars nums)
  else
    some []

/-- One iteration of the `locate_kings` loop: the black test runs first,
then the white test, each overwriting the remembered square. -/
def locate_step (acc : Option String × Option String) (kv : String × Piece) :
    Option String × Option String :=
  let acc1 :=
    if kv.2.is_king ∧ kv.2.get_color = Color.b then (acc.1, some kv.1) else acc
  if kv.2.is_king ∧ kv.2.get_color = Color.w then (some kv.1, acc1.2) else acc1

/-- Mirror of `locate_kings`: scan the dict in iteration order, remembering the last
king square seen of each color; raises (`none`, an `UnboundLocalError`) when
either color has no king.  Returns `(white king square, black king square)`. -/
def locate_kings (board : Board) : Option (String × String) :=
  match board.foldl locate_step ((none : Option String), (none : Option String)) with
  | (some wk, some bk) => some (wk, bk)
  | _ => none

/-- The shared tail of `can_make_move`: destination-square validity, piece
shape, friendly-capture test, and the path-obstruction scan for non-jumpers.
These are the checks run in both modes, in source order, after the
game-state, piece-presence and (real mode only) turn-ownership guards. -/
def guard_checks (g : ChessVar) (board : Board) (moving : Piece)
    (curr_square new_square : String) : Option Bool :=
  match g.is_valid_square new_square with
  | none => none
  | some v =>
  if ¬v then some false
  else
    match moving.valid_move curr_square new_square with
    | none => none
    | some shape =>
    if ¬shape then some false
    else
      if (boardGet board new_square).elim false
          (fun target => decide (target.get_color = moving.get_color)) then some false
      else
        if ¬moving.can_jump then
          match get_squares_between curr_square new_square with
          | none => none
          | some mids =>
            if mids.any (fun sq => (boardGet board sq).isSome) then some false
            else some true
        else some true

/-- Behaviour of `can_make_move` with `hypothetical_position = True`: game-state guard,
piece-presence guard, then `guard_checks`; no turn guard, no check guard. -/
def can_move_hyp (g : ChessVar) (board : Board) (curr_square new_square : String) :
    Option Bool :=
  match boardGet board curr_square with
  | none =>
    if g.state ≠ GState.UNFINISHED then some false else some false
  | some moving =>
    if g.state ≠ GState.UNFINISHED then some false
    else guard_checks g board moving curr_square new_square

/-- The loop body of `results_in_check`: walk the hypothetical board in dict
iteration order; a black piece is tested against the white king square, a
white piece against the black king square; stop at the first piece that can
reach its target. -/
def check_scan (g : ChessVar) (hypb : Board) (wk bk : String) :
    List (String × Piece) → Option Bool
  | [] => some false
  | (square, piece) :: rest =>
    if piece.get_color = Color.b then
      match can_move_hyp g hypb square wk with
      | none => none
      | some r => if r then some true else check_scan g hypb wk bk rest
    else
      match can_move_hyp g hypb square bk with
      | none => none
      | some r => if r then some true else check_scan g hypb wk bk rest

/-- Mirror of `results_in_check`: copy the live board, replay the move on the copy
(delete the source entry, write the destination entry), locate both kings on
the copy, then scan every piece of the copy for a piece that can legally
reach the opposing king square with `hypothetical_position = True`. -/
def results_in_check (g : ChessVar) (curr_square new_square : String) : Option Bool :=
  match boardGet g.board curr_square with
  | none => none
  | some moving_piece =>
    let hypothetical_board :=
      boardSet (boardDel g.board curr_square) new_square moving_piece
    match locate_kings hypothetical_board with
    | none => none
    | some (white_king_square, black_king_square) =>
      check_scan g hypothetical_board white_king_square black_king_square
        hypothetical_board

/-- Mirror of `can_make_move` with its `hypothetical_position` flag.  The flag gates the
turn-ownership guard and the final `results_in_check` guard; everything else
is shared with the hypothetical mode. -/
def ChessVar.can_make_move (g : ChessVar) (board : Board)
    (curr_square new_square : String) (hypothetical_position : Bool) : Option Bool :=
  match boardGet board curr_square with
  | none =>
    if g.state ≠ GState.UNFINISHED then some false else some false
  | some moving =>
    if g.state ≠ GState.UNFINISHED then some false
    else
      if hypothetical_position = false ∧ moving.get_color ≠ g.turn then some false
      else
        match guard_checks g board moving curr_square new_square with
        | none => none
        | some pass =>
        if ¬pass then some false
        else
          if hypothetical_position = false then
            match results_in_check g curr_square new_square with
            | none => none
            | some chk => if chk then some false else some true
          else some true

/-- Mirror of `at_highest_rank`, testing `int(square[1]) == board_size`. -/
def ChessVar.at_highest_rank (g : ChessVar) (square : String) : Option Bool :=
  match idx square 1 with
  | none => none
  | some c1 =>
    match pyInt c1 with
    | none => none
    | some r => some (r = g.board_size)

/-- Mirror of `update_game_state`: recompute the outcome from the two king ranks, in
the `elif` order of the source; returns the updated instance and the boolean
the method returns. -/
def ChessVar.update_game_state (g : ChessVar) : Option (ChessVar × Bool) :=
  match locate_kings g.board with
  | none => none
  | some (white_king_square, black_king_square) =>
    match g.at_highest_rank black_king_square with
    | none => none
    | some bGoal =>
    match g.at_highest_rank white_king_square with
    | none => none
    | some wGoal =>
    if bGoal ∧ ¬wGoal then some ({ g with state := GState.BLACK_WON }, true)
    else if bGoal ∧ wGoal then some ({ g with state := GState.TIE }, true)
    else if wGoal ∧ ¬g.game_end_imminent then
      some ({ g with game_end_imminent := true }, false)
    else if wGoal ∧ g.game_end_imminent then
      some ({ g with state := GState.WHITE_WON }, true)
    else some (g, false)

/-- Mirror of `make_move`: validate with `can_make_move` in real mode; on success move
the piece on the live board, flip the turn, recompute the game state, and
return `True`; otherwise return `False` with the instance untouched. -/
def ChessVar.make_move (g : ChessVar) (curr_square new_square : String) :
    Option (Bool × ChessVar) :=
  match g.can_make_move g.board curr_square new_square false with
  | none => none
  | some ok =>
  if ok then
    match boardGet g.board curr_square with
    | none => none
    | some moving_piece =>
      let board2 := boardSet (boardDel g.board curr_square) new_square moving_piece
      let g2 : ChessVar := { g with board := board2, turn := g.turn.flip }
      match g2.update_game_state with
      | none => none
      | some (g3, _) => some (true, g3)
  else some (false, g)

/-- Variant of `results_in_check` with the live board threaded through, mirroring that
the Python method mutates only the `.copy()` of `self._board`: the returned
board is `self._board` as it stands when the method returns.  Every mutation
of the simulation rebinds the local copy, so the live board never changes. -/
def results_in_check_tr (g : ChessVar) (curr_square new_square : String) :
    Option (Bool × Board) :=
  match boardGet g.board curr_square with
  | none => none
  | some moving_piece =>
    let hypothetical_board := g.board
    let hypothetical_board := boardDel hypothetical_board curr_square
    let hypothetical_board := boardSet hypothetical_board new_square moving_piece
    match locate_kings hypothetical_board with
    | none => none
    | some (white_king_square, black_king_square) =>
      match check_scan g hypothetical_board white_king_square black_king_square
          hypothetical_board with
      | none => none
      | some r => some (r, g.board)

/-- Mirror of `spawn_piece` restricted to the four legal kind names (the setup routines
only pass those): dict assignment of a fresh piece. -/
def spawn (board : Board) (kind : PieceKind) (square : String) (color : Color) : Board :=
  boardSet board square { kind := kind, color := color }

/-- Mirror of `setup_default_start_pos`: the twelve `spawn_piece` calls of the source,
in order. -/
def setup_default_start_pos : Board :=
  let b := spawn [] PieceKind.king "a1" Color.w
  let b := spawn b PieceKind.rook "a2" Color.w
  let b := spawn b PieceKind.bishop "b1" Color.w
  let b := spawn b PieceKind.bishop "b2" Color.w
  let b := spawn b PieceKind.knight "c1" Color.w
  let b := spawn b PieceKind.knight "c2" Color.w
  let b := spawn b PieceKind.king "h1" Color.b
  let b := spawn b PieceKind.rook "h2" Color.b
  let b := spawn b PieceKind.bishop "g1" Color.b
  let b := spawn b PieceKind.bishop "g2" Color.b
  let b := spawn b PieceKind.knight "f1" Color.b
  let b := spawn b PieceKind.knight "f2" Color.b
  b

/-- Mirror of `ChessVar.__init__`: empty dict seeded with the default position, board
size 8, white to move, grace flag clear, game unfinished. -/
def ChessVar.init : ChessVar :=
  { board := setup_default_start_pos
    board_size := 8
    turn := Color.w
    game_end_imminent := false
    state := GState.UNFINISHED }

/-- The contents `get_squares_between` produces on rendered squares, written
as an indexed path: file-aligned and rank-aligned paths ascend in the varying
coordinate regardless of the direction of travel, diagonal paths walk from
the first square toward the second, non-aligned pairs give the empty list. -/
def sbPath (f1 r1 f2 r2 : Nat) : List String :=
  if f1 = f2 then
    (List.range (adiff r1 r2 - 1)).map (fun i => mkSq f1 (min r1 r2 + 1 + i))
  else if r1 = r2 then
    (List.range (adiff f1 f2 - 1)).map (fun i => mkSq (min f1 f2 + 1 + i) r1)
  else if adiff f1 f2 = adiff r1 r2 then
    (List.range (adiff f1 f2 - 1)).map (fun i =>
      mkSq (if f1 ≤ f2 then f1 + 1 + i else f1 - 1 - i)
           (if r1 ≤ r2 then r1 + 1 + i else r1 - 1 - i))
  else []

/-- A square string the engine can fully parse: at least two characters, the
second a decimal digit.  Every square the setup routines create is of this
form, and `is_valid_square`, the `valid_move` methods and
`get_squares_between` never raise on such strings. -/
def wfSquare (s : String) : Bool :=
  match s.data with
  | _ :: c :: _ => decide (48 ≤ c.toNat ∧ c.toNat ≤ 57)
  | _ => false

/-- Every key of the board is a parseable square string. -/
def wfBoard (b : Board) : Bool := b.all (fun kv => wfSquare kv.1)

/-- The session after the opening move c1 to d3 on the default position: the
knight entry is deleted and re-added at the end of the dict, the turn flips,
nothing else changes. -/
def afterKnightMove : ChessVar :=
  { board := [("a1", ⟨PieceKind.king, Color.w⟩), ("a2", ⟨PieceKind.rook, Color.w⟩),
              ("b1", ⟨PieceKind.bishop, Color.w⟩), ("b2", ⟨PieceKind.bishop, Color.w⟩),
              ("c2", ⟨PieceKind.knight, Color.w⟩), ("h1", ⟨PieceKind.king, Color.b⟩),
              ("h2", ⟨PieceKind.rook, Color.b⟩), ("g1", ⟨PieceKind.bishop, Color.b⟩),
              ("g2", ⟨PieceKind.bishop, Color.b⟩), ("f1", ⟨PieceKind.knight, Color.b⟩),
              ("f2", ⟨PieceKind.knight, Color.b⟩), ("d3", ⟨PieceKind.knight, Color.w⟩)]
    board_size := 8
    turn := Color.b
    game_end_imminent := false
    state := GState.UNFINISHED }

theorem adiff_self (a : Nat) : adiff a a = 0 := by
  simp [adiff]

theorem wfSquare_destruct {s : String} (h : wfSquare s = true) :
    ∃ c0 c1 rest, s.data = c0 :: c1 :: rest ∧ 48 ≤ c1.toNat ∧ c1.toNat ≤ 57 := by
  unfold wfSquare at h
  cases hd : s.data with
  | nil => rw [hd] at h; simp at h
  | cons c0 t =>
    cases t with
    | nil => rw [hd] at h; simp at h
    | cons c1 rest =>
      rw [hd] at h
      simp only [decide_eq_true_eq] at h
      exact ⟨c0, c1, rest, rfl, h.1, h.2⟩

theorem idx_zero_of_data {s : String} {c0 c1 : Char} {rest : List Char}
    (h : s.data = c0 :: c1 :: rest) : idx s 0 = some c0 := by
  simp [idx, h]

theorem idx_one_of_data {s : String} {c0 c1 : Char} {rest : List Char}
    (h : s.data = c0 :: c1 :: rest) : idx s 1 = some c1 := by
  simp [idx, h]

theorem pyInt_digit {c : Char} (h1 : 48 ≤ c.toNat) (h2 : c.toNat ≤ 57) :
    pyInt c = some (c.toNat - 48) := by
  simp [pyInt, h1, h2]

/-- The `hypothetical_position = True` mode of `can_make_move` is exactly
`can_move_hyp`. -/
theorem can_make_move_true_eq (g : ChessVar) (b : Board) (c n : String) :
    g.can_make_move b c n true = can_move_hyp g b c n := by
  unfold ChessVar.can_make_move can_move_hyp
  cases boardGet b c with
  | none => rfl
  | some moving =>
    cases hg : guard_checks g b moving c n with
    | none => by_cases hs : g.state = GState.UNFINISHED <;> simp [hs, hg]
    | some pass =>
      by_cases hs : g.state = GState.UNFINISHED <;> cases pass <;> simp [hs, hg]

/-- A `some true` verdict of `can_make_move` requires the game to be in
progress, in either mode. -/
theorem can_make_move_true_state {g : ChessVar} {b : Board} {c n : String} {m : Bool}
    (h : g.can_make_move b c n m = some true) : g.state = GState.UNFINISHED := by
  by_cases hs : g.state = GState.UNFINISHED
  · exact hs
  · exfalso
    unfold ChessVar.can_make_move at h
    split at h <;> simp [hs] at h

/-- A `make_move` that returns `False` leaves the instance untouched. -/
theorem make_move_false_frame {g : ChessVar} {c n : String} {g2 : ChessVar}
    (h : g.make_move c n = some (false, g2)) : g2 = g := by
  unfold ChessVar.make_move at h
  split at h
  · simp at h
  · rename_i ok heq
    by_cases hok : ok = true
    · exfalso
      rw [if_pos hok] at h
      split at h
      · simp at h
      · dsimp only at h
        split at h
        · simp at h
        · simp at h
    · rw [if_neg hok] at h
      simp only [Option.some.injEq, Prod.mk.injEq, true_and] at h
      exact h.symm

/-- A `some false` legality verdict makes `make_move` return `False` with the
instance untouched. -/
theorem make_move_of_false_verdict {g : ChessVar} {c n : String}
    (h : g.can_make_move g.board c n false = some false) :
    g.make_move c n = some (false, g) := by
  unfold ChessVar.make_move
  rw [h]
  simp

/-- Anatomy of a successful `make_move`: the legality verdict was `some true`,
a piece stood on the source square, and the returned instance is the result of
`update_game_state` on the relocated board with the turn flipped. -/
theorem make_move_success {g g2 : ChessVar} {c n : String}
    (h : g.make_move c n = some (true, g2)) :
    ∃ p, boardGet g.board c = some p ∧
      g.can_make_move g.board c n false = some true ∧
      ∃ r, ChessVar.update_game_state
          { g with board := boardSet (boardDel g.board c) n p, turn := g.turn.flip }
          = some (g2, r) := by
  unfold ChessVar.make_move at h
  split at h
  · simp at h
  · rename_i ok heq
    by_cases hok : ok = true
    · subst hok
      rw [if_pos rfl] at h
      split at h
      · simp at h
      · rename_i p hp
        dsimp only at h
        split at h
        · simp at h
        · rename_i g3 snd hu
          simp only [Option.some.injEq, Prod.mk.injEq, true_and] at h
          exact ⟨p, hp, heq, snd, h ▸ hu⟩
    · rw [if_neg hok] at h
      simp at h

/-- A `make_move` returning `some` returns either `(false, g)` or
`(true, g2)` for a successful move. -/
theorem make_move_shape {g g2 : ChessVar} {c n : String} {r : Bool}
    (h : g.make_move c n = some (r, g2)) :
    (r = false ∧ g2 = g) ∨ r = true := by
  cases r with
  | false => exact Or.inl ⟨rfl, make_move_false_frame h⟩
  | true => exact Or.inr rfl

/-- Everything `update_game_state` guarantees about its result: board, size
and turn are untouched; the state either stays or becomes terminal; the grace
flag is never cleared, and it is only set when the white king stands on the
highest rank. -/
theorem update_game_state_cases {g g3 : ChessVar} {r : Bool}
    (h : g.update_game_state = some (g3, r)) :
    g3.board = g.board ∧ g3.board_size = g.board_size ∧ g3.turn = g.turn ∧
    (g3.state = g.state ∨ g3.state ≠ GState.UNFINISHED) ∧
    (g.game_end_imminent = true → g3.game_end_imminent = true) ∧
    (g3.game_end_imminent = true → g.game_end_imminent = true ∨
      ∃ wk bk, locate_kings g.board = some (wk, bk) ∧
        g.at_highest_rank wk = some true) := by
  unfold ChessVar.update_game_state at h
  split at h
  · simp at h
  · rename_i wk bk hk
    split at h
    · simp at h
    · rename_i bGoal hb
      split at h
      · simp at h
      · rename_i wGoal hw
        split at h
        · simp only [Option.some.injEq, Prod.mk.injEq] at h
          rw [← h.1]
          exact ⟨rfl, rfl, rfl, Or.inr (by simp), fun hf => hf, fun hf => Or.inl hf⟩
        · split at h
          · simp only [Option.some.injEq, Prod.mk.injEq] at h
            rw [← h.1]
            exact ⟨rfl, rfl, rfl, Or.inr (by simp), fun hf => hf, fun hf => Or.inl hf⟩
          · split at h
            · rename_i hcond
              simp only [Option.some.injEq, Prod.mk.injEq] at h
              rw [← h.1]
              refine ⟨rfl, rfl, rfl, Or.inl rfl, fun _ => rfl, fun _ => ?_⟩
              exact Or.inr ⟨wk, bk, hk, by rw [hw, hcond.1]⟩
            · split at h
              · simp only [Option.some.injEq, Prod.mk.injEq] at h
                rw [← h.1]
                exact ⟨rfl, rfl, rfl, Or.inr (by simp), fun hf => hf, fun hf => Or.inl hf⟩
              · simp only [Option.some.injEq, Prod.mk.injEq] at h
                rw [← h.1]
                exact ⟨rfl, rfl, rfl, Or.inl rfl, fun hf => hf, fun hf => Or.inl hf⟩

/-- The full outcome table of `update_game_state`: the result instance is
one of five records, selected by the king ranks and the grace flag in the
`elif` order of the source. -/
theorem update_game_state_table {g g3 : ChessVar} {r : Bool}
    (h : g.update_game_state = some (g3, r)) :
    ∃ wk bk wGoal bGoal,
      locate_kings g.board = some (wk, bk) ∧
      g.at_highest_rank wk = some wGoal ∧
      g.at_highest_rank bk = some bGoal ∧
      g3 = (if bGoal = true ∧ ¬wGoal = true then { g with state := GState.BLACK_WON }
        else if bGoal = true ∧ wGoal = true then { g with state := GState.TIE }
        else if wGoal = true ∧ ¬g.game_end_imminent = true then
          { g with game_end_imminent := true }
        else if wGoal = true ∧ g.game_end_imminent = true then
          { g with state := GState.WHITE_WON }
        else g) := by
  unfold ChessVar.update_game_state at h
  split at h
  · simp at h
  · rename_i wk bk hk
    split at h
    · simp at h
    · rename_i bGoal hb
      split at h
      · simp at h
      · rename_i wGoal hw
        refine ⟨wk, bk, wGoal, bGoal, hk, hw, hb, ?_⟩
        split at h
        · rename_i h1
          rw [if_pos h1]
          simp only [Option.some.injEq, Prod.mk.injEq] at h
          exact h.1.symm
        · rename_i h1
          rw [if_neg h1]
          split at h
          · rename_i h2
            rw [if_pos h2]
            simp only [Option.some.injEq, Prod.mk.injEq] at h
            exact h.1.symm
          · rename_i h2
            rw [if_neg h2]
            split at h
            · rename_i h3
              rw [if_pos h3]
              simp only [Option.some.injEq, Prod.mk.injEq] at h
              exact h.1.symm
            · rename_i h3
              rw [if_neg h3]
              split at h
              · rename_i h4
                rw [if_pos h4]
                simp only [Option.some.injEq, Prod.mk.injEq] at h
                exact h.1.symm
              · rename_i h4
                rw [if_neg h4]
                simp only [Option.some.injEq, Prod.mk.injEq] at h
                exact h.1.symm

/-- The function `at_highest_rank` depends only on the board size field. -/
theorem at_highest_rank_congr {g g2 : ChessVar} (h : g.board_size = g2.board_size)
    (sq : String) : g.at_highest_rank sq = g2.at_highest_rank sq := by
  unfold ChessVar.at_highest_rank
  rw [h]

/-- C3 (claim): a rejected `make_move` returns `False` and leaves the whole
session — board mapping, turn, game state and grace flag — exactly as it was:
the only `False` return of the source is the `else` branch, which performs no
mutation, and conversely a `some false` legality verdict always lands in that
branch. -/
theorem make_move_reject_atomic :
    (∀ (g : ChessVar) (c n : String) (g2 : ChessVar),
        g.make_move c n = some (false, g2) → g2 = g) ∧
    (∀ (g : ChessVar) (c n : String),
        g.can_make_move g.board c n false = some false →
        g.make_move c n = some (false, g)) :=
  ⟨fun _ _ _ _ h => make_move_false_frame h,
   fun _ _ _ h => make_move_of_false_verdict h⟩

/-- Witness for C3 at a concrete input: on the default start position the
move a1 to a3 is illegal (the king shape fails), and `make_move` returns
`False` with the session unchanged. -/
theorem make_move_reject_atomic_witness :
    ChessVar.init.make_move "a1" "a3" = some (false, ChessVar.init) :=
  make_move_reject_atomic.2 ChessVar.init "a1" "a3" (by decide)

/-- A terminal game state makes `can_make_move` return `False` in both
modes before any other check runs. -/
theorem can_make_move_terminal {g : ChessVar} (b : Board) (c n : String) (m : Bool)
    (hs : g.state ≠ GState.UNFINISHED) : g.can_make_move b c n m = some false := by
  unfold ChessVar.can_make_move
  split <;> simp [hs]

/-- A terminal game state makes `make_move` reject without mutation. -/
theorem make_move_terminal {g : ChessVar} (c n : String)
    (hs : g.state ≠ GState.UNFINISHED) : g.make_move c n = some (false, g) :=
  make_move_of_false_verdict (can_make_move_terminal _ _ _ _ hs)

/-- The state after any `make_move` either is the old state or has newly
become terminal starting from `UNFINISHED`. -/
theorem make_move_state_transition {g g2 : ChessVar} {c n : String} {r : Bool}
    (h : g.make_move c n = some (r, g2)) :
    g2.state = g.state ∨ (g.state = GState.UNFINISHED ∧ g2.state ≠ GState.UNFINISHED) := by
  cases r with
  | false => rw [make_move_false_frame h]; exact Or.inl rfl
  | true =>
    obtain ⟨p, hp, hcan, rr, hu⟩ := make_move_success h
    have hs := can_make_move_true_state hcan
    rcases (update_game_state_cases hu).2.2.2.1 with h1 | h1
    · left; rw [h1]
    · right; exact ⟨hs, h1⟩

/-- C7 (claim): once the game state is terminal, every `can_make_move` call
— any board, any squares, real or hypothetical mode — returns `False`, every
`make_move` call returns `False` with the session unchanged, and the state
machine is one-directional: a move either preserves the state or turns
`UNFINISHED` into a terminal state, so a terminal state never changes
again. -/
theorem terminal_state_absorbing :
    (∀ (g : ChessVar) (b : Board) (c n : String) (m : Bool),
        g.state ≠ GState.UNFINISHED → g.can_make_move b c n m = some false) ∧
    (∀ (g : ChessVar) (c n : String),
        g.state ≠ GState.UNFINISHED → g.make_move c n = some (false, g)) ∧
    (∀ (g g2 : ChessVar) (c n : String) (r : Bool),
        g.make_move c n = some (r, g2) →
        g2.state = g.state ∨ (g.state = GState.UNFINISHED ∧ g2.state ≠ GState.UNFINISHED)) :=
  ⟨fun _ b c n m hs => can_make_move_terminal b c n m hs,
   fun _ c n hs => make_move_terminal c n hs,
   fun _ _ _ _ _ h => make_move_state_transition h⟩

/-- Witness for C7: a session in the `WHITE_WON` state rejects c1 to d3 (a
move that is legal while the game runs) in both modes and stays identical;
and a rejected move on the initial session preserves its state. -/
theorem terminal_state_absorbing_witness :
    (({ ChessVar.init with state := GState.WHITE_WON } : ChessVar).can_make_move
        ChessVar.init.board "c1" "d3" true = some false) ∧
    (({ ChessVar.init with state := GState.WHITE_WON } : ChessVar).make_move "c1" "d3"
        = some (false, { ChessVar.init with state := GState.WHITE_WON })) ∧
    (ChessVar.init.state = ChessVar.init.state ∨
      (ChessVar.init.state = GState.UNFINISHED ∧ ChessVar.init.state ≠ GState.UNFINISHED)) :=
  ⟨terminal_state_absorbing.1 _ ChessVar.init.board "c1" "d3" true (by decide),
   terminal_state_absorbing.2.1 { ChessVar.init with state := GState.WHITE_WON }
     "c1" "d3" (by decide),
   terminal_state_absorbing.2.2 ChessVar.init ChessVar.init "a1" "a3" false (by decide)⟩

/-- C9 (claim): the self-endangerment simulation mutates only its copy of
the board: whatever `results_in_check` computes, the live board it leaves
behind is exactly the one it started from, and the verdict agrees with the
pure reading of the simulation. -/
theorem check_simulation_frame :
    ∀ (g : ChessVar) (c n : String) (r : Bool) (b2 : Board),
      results_in_check_tr g c n = some (r, b2) →
      b2 = g.board ∧ results_in_check g c n = some r := by
  intro g c n r b2 h
  unfold results_in_check_tr at h
  cases hp : boardGet g.board c with
  | none => rw [hp] at h; simp at h
  | some p =>
    rw [hp] at h
    dsimp only at h
    cases hk : locate_kings (boardSet (boardDel g.board c) n p) with
    | none => rw [hk] at h; simp at h
    | some kk =>
      obtain ⟨wk, bk⟩ := kk
      rw [hk] at h
      dsimp only at h
      cases hscan : check_scan g (boardSet (boardDel g.board c) n p) wk bk
          (boardSet (boardDel g.board c) n p) with
      | none => rw [hscan] at h; simp at h
      | some rr =>
        rw [hscan] at h
        simp only [Option.some.injEq, Prod.mk.injEq] at h
        refine ⟨h.2.symm, ?_⟩
        unfold results_in_check
        rw [hp]
        dsimp only
        rw [hk]
        dsimp only
        rw [← h.1]
        exact hscan

/-- Witness for C9: evaluating the simulation for the opening knight move on
the default position returns the live board unchanged, with verdict
`False`. -/
theorem check_simulation_frame_witness :
    ChessVar.init.board = ChessVar.init.board ∧
    results_in_check ChessVar.init "c1" "d3" = some false :=
  check_simulation_frame ChessVar.init "c1" "d3" false ChessVar.init.board (by decide)

/-- A successful dict lookup is a membership. -/
theorem boardGet_mem {b : Board} {s : String} {p : Piece} (h : boardGet b s = some p) :
    (s, p) ∈ b := by
  induction b with
  | nil => simp [boardGet] at h
  | cons kv rest ih =>
    obtain ⟨k, q⟩ := kv
    unfold boardGet at h
    by_cases hk : k = s
    · rw [if_pos hk] at h
      subst hk
      rw [Option.some.inj h]
      exact List.mem_cons_self _ _
    · rw [if_neg hk] at h
      exact List.mem_cons_of_mem _ (ih h)

/-- Deleting a key only removes entries. -/
theorem mem_boardDel {b : Board} {s : String} {e : String × Piece}
    (h : e ∈ boardDel b s) : e ∈ b := by
  induction b with
  | nil => simp [boardDel] at h
  | cons kv rest ih =>
    obtain ⟨k, q⟩ := kv
    unfold boardDel at h
    by_cases hk : k = s
    · rw [if_pos hk] at h
      exact List.mem_cons_of_mem _ h
    · rw [if_neg hk] at h
      rcases List.mem_cons.mp h with h1 | h1
      · exact h1 ▸ List.mem_cons_self _ _
      · exact List.mem_cons_of_mem _ (ih h1)

/-- An entry of the dict after an assignment is the new entry or an old
one. -/
theorem mem_boardSet {b : Board} {s : String} {p : Piece} {e : String × Piece}
    (h : e ∈ boardSet b s p) : e = (s, p) ∨ e ∈ b := by
  induction b with
  | nil =>
    simp only [boardSet, List.mem_singleton] at h
    exact Or.inl h
  | cons kv rest ih =>
    obtain ⟨k, q⟩ := kv
    unfold boardSet at h
    by_cases hk : k = s
    · rw [if_pos hk] at h
      rcases List.mem_cons.mp h with h1 | h1
      · exact Or.inl h1
      · exact Or.inr (List.mem_cons_of_mem _ h1)
    · rw [if_neg hk] at h
      rcases List.mem_cons.mp h with h1 | h1
      · exact Or.inr (h1 ▸ List.mem_cons_self _ _)
      · rcases ih h1 with h2 | h2
        · exact Or.inl h2
        · exact Or.inr (List.mem_cons_of_mem _ h2)

/-- Every entry of a well-formed board has a parseable key. -/
theorem wfBoard_mem {b : Board} (hwf : wfBoard b = true) {e : String × Piece}
    (he : e ∈ b) : wfSquare e.1 = true := by
  unfold wfBoard at hwf
  rw [List.all_eq_true] at hwf
  exact hwf e he

/-- The first component of a loop step: updated exactly by a white king. -/
theorem locate_step_fst (acc : Option String × Option String) (kv : String × Piece) :
    (locate_step acc kv).1 =
      if kv.2.is_king ∧ kv.2.get_color = Color.w then some kv.1 else acc.1 := by
  unfold locate_step
  by_cases hb : kv.2.is_king ∧ kv.2.get_color = Color.b <;>
    by_cases hw : kv.2.is_king ∧ kv.2.get_color = Color.w <;>
      simp [hb, hw]

/-- The second component of a loop step: updated exactly by a black king. -/
theorem locate_step_snd (acc : Option String × Option String) (kv : String × Piece) :
    (locate_step acc kv).2 =
      if kv.2.is_king ∧ kv.2.get_color = Color.b then some kv.1 else acc.2 := by
  unfold locate_step
  by_cases hb : kv.2.is_king ∧ kv.2.get_color = Color.b <;>
    by_cases hw : kv.2.is_king ∧ kv.2.get_color = Color.w <;>
      simp [hb, hw]

/-- A square remembered by the `locate_kings` loop is an initial value or a
key of the scanned list. -/
theorem locate_fold_key (l : List (String × Piece))
    (acc : Option String × Option String) (x : String) :
    ((List.foldl locate_step acc l).1 = some x → acc.1 = some x ∨ ∃ q, (x, q) ∈ l) ∧
    ((List.foldl locate_step acc l).2 = some x → acc.2 = some x ∨ ∃ q, (x, q) ∈ l) := by
  induction l generalizing acc with
  | nil => exact ⟨fun h => Or.inl h, fun h => Or.inl h⟩
  | cons kv rest ih =>
    constructor
    · intro h
      rw [List.foldl_cons] at h
      rcases (ih (locate_step acc kv)).1 h with h1 | h1
      · rw [locate_step_fst] at h1
        by_cases hw : kv.2.is_king = true ∧ kv.2.get_color = Color.w
        · rw [if_pos hw] at h1
          right
          refine ⟨kv.2, ?_⟩
          rw [(Option.some.inj h1).symm]
          exact List.mem_cons_self _ _
        · rw [if_neg hw] at h1
          exact Or.inl h1
      · right
        obtain ⟨q, hq⟩ := h1
        exact ⟨q, List.mem_cons_of_mem _ hq⟩
    · intro h
      rw [List.foldl_cons] at h
      rcases (ih (locate_step acc kv)).2 h with h1 | h1
      · rw [locate_step_snd] at h1
        by_cases hb : kv.2.is_king = true ∧ kv.2.get_color = Color.b
        · rw [if_pos hb] at h1
          right
          refine ⟨kv.2, ?_⟩
          rw [(Option.some.inj h1).symm]
          exact List.mem_cons_self _ _
        · rw [if_neg hb] at h1
          exact Or.inl h1
      · right
        obtain ⟨q, hq⟩ := h1
        exact ⟨q, List.mem_cons_of_mem _ hq⟩

/-- The two squares `locate_kings` returns are keys of the board. -/
theorem locate_kings_keys {b : Board} {wk bk : String}
    (h : locate_kings b = some (wk, bk)) :
    (∃ q, (wk, q) ∈ b) ∧ (∃ q, (bk, q) ∈ b) := by
  unfold locate_kings at h
  cases hf : List.foldl locate_step ((none : Option String), (none : Option String)) b with
  | mk f s =>
    rw [hf] at h
    cases f with
    | none => simp at h
    | some xw =>
      cases s with
      | none => simp at h
      | some xb =>
        simp only [Option.some.injEq, Prod.mk.injEq] at h
        constructor
        · rcases (locate_fold_key b ((none : Option String), (none : Option String)) wk).1
              (by rw [hf, h.1]) with h1 | h1
          · simp at h1
          · exact h1
        · rcases (locate_fold_key b ((none : Option String), (none : Option String)) bk).2
              (by rw [hf, h.2]) with h1 | h1
          · simp at h1
          · exact h1

/-- C2 (claim): after every successfully applied move the state and the
grace flag are recomputed from the two king ranks of the resulting board,
exactly in the order of the source: black king alone at the farthest rank
means an immediate `BLACK_WON` (no grace period for Black); both kings there
mean `TIE`; the white king there with the flag clear sets the flag and keeps
the game `UNFINISHED`; the white king there with the flag already set means
`WHITE_WON`; otherwise the state stays `UNFINISHED` and the flag keeps its
old value. -/
theorem outcome_recomputed :
    ∀ (g g2 : ChessVar) (c n : String),
      g.make_move c n = some (true, g2) →
      ∃ wk bk wGoal bGoal,
        locate_kings g2.board = some (wk, bk) ∧
        g2.at_highest_rank wk = some wGoal ∧
        g2.at_highest_rank bk = some bGoal ∧
        g2.state = (if bGoal = true ∧ ¬wGoal = true then GState.BLACK_WON
          else if bGoal = true ∧ wGoal = true then GState.TIE
          else if wGoal = true ∧ ¬g.game_end_imminent = true then GState.UNFINISHED
          else if wGoal = true ∧ g.game_end_imminent = true then GState.WHITE_WON
          else GState.UNFINISHED) ∧
        g2.game_end_imminent =
          (if bGoal = true ∧ ¬wGoal = true then g.game_end_imminent
          else if bGoal = true ∧ wGoal = true then g.game_end_imminent
          else if wGoal = true ∧ ¬g.game_end_imminent = true then true
          else if wGoal = true ∧ g.game_end_imminent = true then g.game_end_imminent
          else g.game_end_imminent) := by
  intro g g2 c n h
  obtain ⟨p, hp, hcan, rr, hu⟩ := make_move_success h
  have hs : g.state = GState.UNFINISHED := can_make_move_true_state hcan
  obtain ⟨wk, bk, wGoal, bGoal, hk, hw, hb, hg2⟩ := update_game_state_table hu
  have hcs := update_game_state_cases hu
  refine ⟨wk, bk, wGoal, bGoal, ?_, ?_, ?_, ?_, ?_⟩
  · rw [hcs.1]; exact hk
  · rw [at_highest_rank_congr hcs.2.1 wk]; exact hw
  · rw [at_highest_rank_congr hcs.2.1 bk]; exact hb
  · rw [hg2, apply_ite ChessVar.state, apply_ite ChessVar.state,
        apply_ite ChessVar.state, apply_ite ChessVar.state]
    dsimp only
    rw [hs]
  · rw [hg2, apply_ite ChessVar.game_end_imminent, apply_ite ChessVar.game_end_imminent,
        apply_ite ChessVar.game_end_imminent, apply_ite ChessVar.game_end_imminent]

/-- Witness for C2: the opening knight move c1 to d3 on the default
position, after which neither king is at the farthest rank and the state
stays `UNFINISHED` with the flag clear. -/
theorem outcome_recomputed_witness :
    ∃ wk bk wGoal bGoal,
      locate_kings afterKnightMove.board = some (wk, bk) ∧
      afterKnightMove.at_highest_rank wk = some wGoal ∧
      afterKnightMove.at_highest_rank bk = some bGoal ∧
      afterKnightMove.state = (if bGoal = true ∧ ¬wGoal = true then GState.BLACK_WON
        else if bGoal = true ∧ wGoal = true then GState.TIE
        else if wGoal = true ∧ ¬ChessVar.init.game_end_imminent = true then GState.UNFINISHED
        else if wGoal = true ∧ ChessVar.init.game_end_imminent = true then GState.WHITE_WON
        else GState.UNFINISHED) ∧
      afterKnightMove.game_end_imminent =
        (if bGoal = true ∧ ¬wGoal = true then ChessVar.init.game_end_imminent
        else if bGoal = true ∧ wGoal = true then ChessVar.init.game_end_imminent
        else if wGoal = true ∧ ¬ChessVar.init.game_end_imminent = true then true
        else if wGoal = true ∧ ChessVar.init.game_end_imminent = true then
          ChessVar.init.game_end_imminent
        else ChessVar.init.game_end_imminent) :=
  outcome_recomputed ChessVar.init afterKnightMove "c1" "d3" (by decide)

/-- The square test `is_valid_square` cannot raise on a parseable square string: the file
character exists, and the rank character is a digit so `int` succeeds. -/
theorem is_valid_square_wf {g : ChessVar} {s : String} (hwf : wfSquare s = true) :
    ∃ v, g.is_valid_square s = some v := by
  obtain ⟨c0, c1, rest, hd, h48, h57⟩ := wfSquare_destruct hwf
  unfold ChessVar.is_valid_square
  rw [idx_zero_of_data hd]
  dsimp only
  by_cases hfile : 97 ≤ pyOrd c0 ∧ pyOrd c0 ≤ 97 + g.board_size - 1
  · rw [if_neg (not_not_intro hfile), idx_one_of_data hd]
    dsimp only
    rw [pyInt_digit h48 h57]
    dsimp only
    by_cases hrank : 1 ≤ c1.toNat - 48 ∧ c1.toNat - 48 ≤ g.board_size
    · rw [if_neg (not_not_intro hrank)]
      exact ⟨true, rfl⟩
    · rw [if_pos hrank]
      exact ⟨false, rfl⟩
  · rw [if_pos hfile]
    exact ⟨false, rfl⟩

/-- On a parseable square, the null move is shape-accepted by every piece
kind except the knight, and shape-rejected by the knight. -/
theorem valid_move_null {p : Piece} {s : String} {c0 c1 : Char} {rest : List Char}
    (hd : s.data = c0 :: c1 :: rest) (h48 : 48 ≤ c1.toNat) (h57 : c1.toNat ≤ 57) :
    p.valid_move s s = some true ∨ p.valid_move s s = some false := by
  have h0 := idx_zero_of_data hd
  have h1 := idx_one_of_data hd
  have hpy := pyInt_digit h48 h57
  cases hk : p.kind <;>
    simp [Piece.valid_move, hk, kingValidMove, knightValidMove, bishopValidMove,
      rookValidMove, h0, h1, hpy, adiff_self, pyAnd]

/-- The null move from an occupied parseable square is rejected in both
modes: even when the shape test passes (King, Bishop, Rook all accept a zero
displacement), the friendly-capture test sees the moving piece itself on the
destination square and returns `False`. -/
theorem can_make_move_null {g : ChessVar} {b : Board} {s : String} {p : Piece} (m : Bool)
    (hocc : boardGet b s = some p) (hwf : wfSquare s = true) :
    g.can_make_move b s s m = some false := by
  obtain ⟨c0, c1, rest, hd, h48, h57⟩ := wfSquare_destruct hwf
  unfold ChessVar.can_make_move
  rw [hocc]
  dsimp only
  by_cases hs : g.state = GState.UNFINISHED
  · rw [if_neg (by simp [hs])]
    by_cases ht : m = false ∧ p.get_color ≠ g.turn
    · rw [if_pos ht]
    · rw [if_neg ht]
      have hguard : guard_checks g b p s s = some false := by
        obtain ⟨v, hv⟩ := is_valid_square_wf (g := g) hwf
        unfold guard_checks
        rw [hv]
        dsimp only
        cases v with
        | false => simp
        | true =>
          rw [if_neg (by simp)]
          rcases valid_move_null (p := p) hd h48 h57 with hvm | hvm
          · rw [hvm]
            dsimp only
            rw [if_neg (by simp)]
            rw [if_pos (by rw [hocc]; simp)]
          · rw [hvm]
            dsimp only
            rw [if_pos (by simp)]
      rw [hguard]
      simp
  · rw [if_pos (by simp [hs])]

/-- C8 (claim): for every board and every occupied parseable square, the
null move from the square to itself is rejected by the rules engine in both
real and hypothetical mode, even though the King shape predicate accepts the
zero displacement. -/
theorem null_move_rejected :
    ∀ (g : ChessVar) (b : Board) (s : String) (p : Piece) (m : Bool),
      boardGet b s = some p → wfSquare s = true →
      g.can_make_move b s s m = some false :=
  fun _ _ _ _ m hocc hwf => can_make_move_null m hocc hwf

/-- Witness for C8: the white king on a1 of the default position cannot move
to a1, in real mode and in hypothetical mode. -/
theorem null_move_rejected_witness :
    ChessVar.init.can_make_move ChessVar.init.board "a1" "a1" false = some false ∧
    ChessVar.init.can_make_move ChessVar.init.board "a1" "a1" true = some false :=
  ⟨null_move_rejected ChessVar.init ChessVar.init.board "a1"
      ⟨PieceKind.king, Color.w⟩ false (by decide) (by decide),
   null_move_rejected ChessVar.init ChessVar.init.board "a1"
      ⟨PieceKind.king, Color.w⟩ true (by decide) (by decide)⟩

/-- C10 (claim): the grace flag `_game_end_imminent` starts out `False`, no
move ever clears it, and a move can only set it when the white king stands on
the highest rank of the resulting board — so over a session it flips from
`False` to `True` at most once and never back. -/
theorem grace_flag_monotone :
    ChessVar.init.game_end_imminent = false ∧
    (∀ (g g2 : ChessVar) (c n : String) (r : Bool),
        g.make_move c n = some (r, g2) →
        (g.game_end_imminent = true → g2.game_end_imminent = true) ∧
        (g2.game_end_imminent = true → g.game_end_imminent = true ∨
          ∃ wk bk, locate_kings g2.board = some (wk, bk) ∧
            g2.at_highest_rank wk = some true)) := by
  refine ⟨rfl, ?_⟩
  intro g g2 c n r h
  cases r with
  | false => rw [make_move_false_frame h]; exact ⟨fun hf => hf, fun hf => Or.inl hf⟩
  | true =>
    obtain ⟨p, hp, hcan, rr, hu⟩ := make_move_success h
    have hc := update_game_state_cases hu
    refine ⟨fun hf => hc.2.2.2.2.1 hf, fun hf => ?_⟩
    rcases hc.2.2.2.2.2 hf with h1 | ⟨wk, bk, hk, hw⟩
    · exact Or.inl h1
    · right
      refine ⟨wk, bk, ?_, ?_⟩
      · rw [hc.1]; exact hk
      · rw [at_highest_rank_congr hc.2.1 wk]; exact hw

/-- Witness for C10: with the grace flag already set, the opening knight
move keeps it set. -/
theorem grace_flag_monotone_witness :
    (({ ChessVar.init with game_end_imminent := true } : ChessVar).game_end_imminent = true →
      ({ afterKnightMove with game_end_imminent := true } : ChessVar).game_end_imminent = true) ∧
    (({ afterKnightMove with game_end_imminent := true } : ChessVar).game_end_imminent = true →
      ({ ChessVar.init with game_end_imminent := true } : ChessVar).game_end_imminent = true ∨
      ∃ wk bk,
        locate_kings ({ afterKnightMove with game_end_imminent := true } : ChessVar).board
          = some (wk, bk) ∧
        ({ afterKnightMove with game_end_imminent := true } : ChessVar).at_highest_rank wk
          = some true) :=
  grace_flag_monotone.2 { ChessVar.init with game_end_imminent := true }
    { afterKnightMove with game_end_imminent := true } "c1" "d3" true (by decide)

theorem pyAnd_some (a bb : Bool) : pyAnd a (some bb) = some (a && bb) := by
  unfold pyAnd
  cases a <;> simp

/-- A parseable square from an index fact: the second character exists and is
a digit. -/
theorem wfSquare_of_idx {s : String} {c : Char} (h1 : idx s 1 = some c)
    (h48 : 48 ≤ c.toNat) (h57 : c.toNat ≤ 57) : wfSquare s = true := by
  unfold idx at h1
  unfold wfSquare
  cases hd : s.data with
  | nil => rw [hd] at h1; simp at h1
  | cons x xs =>
    cases xs with
    | nil => rw [hd] at h1; simp at h1
    | cons y ys =>
      rw [hd] at h1
      simp only [List.get?] at h1
      rw [Option.some.inj h1]
      simp [h48, h57]

/-- The movement predicates never raise on two parseable squares: every
character they index exists and every `int` conversion sees a digit. -/
theorem valid_move_wf {p : Piece} {s t : String}
    (hs : wfSquare s = true) (ht : wfSquare t = true) :
    ∃ v, p.valid_move s t = some v := by
  obtain ⟨a0, a1, ar, hda, ha48, ha57⟩ := wfSquare_destruct hs
  obtain ⟨b0, b1, br, hdb, hb48, hb57⟩ := wfSquare_destruct ht
  have h0s := idx_zero_of_data hda
  have h1s := idx_one_of_data hda
  have h0t := idx_zero_of_data hdb
  have h1t := idx_one_of_data hdb
  have hpa := pyInt_digit ha48 ha57
  have hpb := pyInt_digit hb48 hb57
  cases hk : p.kind with
  | king =>
    simp only [Piece.valid_move, hk, kingValidMove, h0s, h1s, h0t, h1t, hpa, hpb]
    repeat' split
    all_goals exact ⟨_, rfl⟩
  | knight =>
    simp only [Piece.valid_move, hk, knightValidMove, h0s, h1s, h0t, h1t, hpa, hpb,
      Option.map_some', pyAnd_some]
    repeat' split
    all_goals exact ⟨_, rfl⟩
  | bishop =>
    simp only [Piece.valid_move, hk, bishopValidMove, h0s, h1s, h0t, h1t, hpa, hpb]
    repeat' split
    all_goals exact ⟨_, rfl⟩
  | rook =>
    simp only [Piece.valid_move, hk, rookValidMove, h0s, h1s, h0t, h1t]
    repeat' split
    all_goals exact ⟨_, rfl⟩

/-- The path function `get_squares_between` never raises on two parseable squares. -/
theorem get_squares_between_wf {s t : String}
    (hs : wfSquare s = true) (ht : wfSquare t = true) :
    ∃ l, get_squares_between s t = some l := by
  obtain ⟨a0, a1, ar, hda, ha48, ha57⟩ := wfSquare_destruct hs
  obtain ⟨b0, b1, br, hdb, hb48, hb57⟩ := wfSquare_destruct ht
  simp only [get_squares_between, idx_zero_of_data hda, idx_one_of_data hda,
    idx_zero_of_data hdb, idx_one_of_data hdb, pyInt_digit ha48 ha57,
    pyInt_digit hb48 hb57]
  repeat' split
  all_goals exact ⟨_, rfl⟩

/-- The shared `guard_checks` never raises when both squares are parseable. -/
theorem guard_checks_wf {g : ChessVar} {b : Board} {p : Piece} {s t : String}
    (hs : wfSquare s = true) (ht : wfSquare t = true) :
    ∃ v, guard_checks g b p s t = some v := by
  obtain ⟨v1, hv1⟩ := is_valid_square_wf (g := g) ht
  obtain ⟨v2, hv2⟩ := valid_move_wf (p := p) hs ht
  obtain ⟨l, hl⟩ := get_squares_between_wf hs ht
  unfold guard_checks
  rw [hv1]
  dsimp only
  split
  · exact ⟨_, rfl⟩
  · rw [hv2]
    dsimp only
    split
    · exact ⟨_, rfl⟩
    · split
      · exact ⟨_, rfl⟩
      · split
        · rw [hl]
          dsimp only
          split
          · exact ⟨_, rfl⟩
          · exact ⟨_, rfl⟩
        · exact ⟨_, rfl⟩

/-- The hypothetical-mode legality test never raises when the scanned board
has parseable keys and the target square is parseable. -/
theorem can_move_hyp_wf {g : ChessVar} {b : Board} (s : String) {t : String}
    (hwfb : wfBoard b = true) (ht : wfSquare t = true) :
    ∃ v, can_move_hyp g b s t = some v := by
  unfold can_move_hyp
  split
  · split
    · exact ⟨_, rfl⟩
    · exact ⟨_, rfl⟩
  · rename_i p hp
    split
    · exact ⟨_, rfl⟩
    · exact guard_checks_wf (wfBoard_mem hwfb (boardGet_mem hp)) ht

/-- The `results_in_check` scan never raises under the same conditions. -/
theorem check_scan_some {g : ChessVar} {hypb : Board} {wk bk : String}
    (hwfb : wfBoard hypb = true) (hwk : wfSquare wk = true) (hbk : wfSquare bk = true)
    (items : List (String × Piece)) :
    ∃ r, check_scan g hypb wk bk items = some r := by
  induction items with
  | nil => exact ⟨false, rfl⟩
  | cons e rest ih =>
    obtain ⟨sq, pc⟩ := e
    unfold check_scan
    by_cases hc : pc.get_color = Color.b
    · rw [if_pos hc]
      obtain ⟨r, hr⟩ := can_move_hyp_wf (g := g) sq hwfb hwk
      rw [hr]
      dsimp only
      cases r with
      | true => exact ⟨true, by simp⟩
      | false => simpa using ih
    · rw [if_neg hc]
      obtain ⟨r, hr⟩ := can_move_hyp_wf (g := g) sq hwfb hbk
      rw [hr]
      dsimp only
      cases r with
      | true => exact ⟨true, by simp⟩
      | false => simpa using ih

/-- The scan returns `True` exactly when some entry of the scanned list can
reach the king of the opposite color in hypothetical mode. -/
theorem check_scan_true_iff {g : ChessVar} {hypb : Board} {wk bk : String}
    (hwfb : wfBoard hypb = true) (hwk : wfSquare wk = true) (hbk : wfSquare bk = true)
    (items : List (String × Piece)) :
    check_scan g hypb wk bk items = some true ↔
      ∃ e ∈ items,
        (e.2.get_color = Color.b ∧ can_move_hyp g hypb e.1 wk = some true) ∨
        (e.2.get_color = Color.w ∧ can_move_hyp g hypb e.1 bk = some true) := by
  induction items with
  | nil => simp [check_scan]
  | cons e rest ih =>
    obtain ⟨sq, pc⟩ := e
    unfold check_scan
    by_cases hc : pc.get_color = Color.b
    · rw [if_pos hc]
      obtain ⟨r, hr⟩ := can_move_hyp_wf (g := g) sq hwfb hwk
      rw [hr]
      dsimp only
      cases r with
      | true =>
        constructor
        · intro _
          exact ⟨(sq, pc), List.mem_cons_self _ _, Or.inl ⟨hc, hr⟩⟩
        · intro _
          simp
      | false =>
        rw [if_neg (by simp)]
        rw [ih]
        constructor
        · intro hh
          obtain ⟨e, he, hp⟩ := hh
          exact ⟨e, List.mem_cons_of_mem _ he, hp⟩
        · intro hh
          obtain ⟨e, he, hp⟩ := hh
          rcases List.mem_cons.mp he with h1 | h1
          · exfalso
            subst h1
            rcases hp with ⟨h2, h3⟩ | ⟨h2, h3⟩
            · rw [hr] at h3
              simp at h3
            · rw [hc] at h2
              simp at h2
          · exact ⟨e, h1, hp⟩
    · rw [if_neg hc]
      have hcw : pc.get_color = Color.w := by
        cases h2 : pc.get_color
        · rfl
        · exact absurd h2 hc
      obtain ⟨r, hr⟩ := can_move_hyp_wf (g := g) sq hwfb hbk
      rw [hr]
      dsimp only
      cases r with
      | true =>
        constructor
        · intro _
          exact ⟨(sq, pc), List.mem_cons_self _ _, Or.inr ⟨hcw, hr⟩⟩
        · intro _
          simp
      | false =>
        rw [if_neg (by simp)]
        rw [ih]
        constructor
        · intro hh
          obtain ⟨e, he, hp⟩ := hh
          exact ⟨e, List.mem_cons_of_mem _ he, hp⟩
        · intro hh
          obtain ⟨e, he, hp⟩ := hh
          rcases List.mem_cons.mp he with h1 | h1
          · exfalso
            subst h1
            rcases hp with ⟨h2, h3⟩ | ⟨h2, h3⟩
            · rw [hcw] at h2
              simp at h2
            · rw [hr] at h3
              simp at h3
          · exact ⟨e, h1, hp⟩

/-- A hypothetical-mode `some true` verdict splits into the state guard and
the shared guard checks. -/
theorem can_move_hyp_parts {g : ChessVar} {b : Board} {c n : String} {p : Piece}
    (hp : boardGet b c = some p) (h : can_move_hyp g b c n = some true) :
    g.state = GState.UNFINISHED ∧ guard_checks g b p c n = some true := by
  unfold can_move_hyp at h
  split at h
  · split at h <;> simp at h
  · rename_i q hq
    rw [hq] at hp
    have hqp : q = p := Option.some.inj hp
    subst hqp
    by_cases hs : g.state = GState.UNFINISHED
    · rw [if_neg (by simp [hs])] at h
      exact ⟨hs, h⟩
    · rw [if_pos (by simp [hs])] at h
      simp at h

/-- A passing guard check certifies the destination square. -/
theorem guard_checks_valid_square {g : ChessVar} {b : Board} {p : Piece} {c n : String}
    (h : guard_checks g b p c n = some true) : g.is_valid_square n = some true := by
  unfold guard_checks at h
  split at h
  · simp at h
  · rename_i v hv
    cases v with
    | true => exact hv
    | false =>
      rw [if_pos (by simp)] at h
      simp at h

/-- A square accepted by `is_valid_square` is parseable. -/
theorem wfSquare_of_valid {g : ChessVar} {n : String}
    (h : g.is_valid_square n = some true) : wfSquare n = true := by
  unfold ChessVar.is_valid_square at h
  split at h
  · simp at h
  · split at h
    · simp at h
    · split at h
      · simp at h
      · rename_i c1 h1
        split at h
        · simp at h
        · rename_i r hr
          have hdig : 48 ≤ c1.toNat ∧ c1.toNat ≤ 57 := by
            by_contra hcon
            unfold pyInt at hr
            rw [if_neg hcon] at hr
            simp at hr
          exact wfSquare_of_idx h1 hdig.1 hdig.2

/-- Core of C1: when the game is running and every guard before the check
test passes, the real-mode verdict is `False` exactly when some piece of the
hypothetical board — of either color — can reach the opposing king square in
hypothetical mode. -/
theorem check_rejection_core {g : ChessVar} {p : Piece} {wk bk c n : String}
    (hwfb : wfBoard g.board = true)
    (hp : boardGet g.board c = some p)
    (hturn : p.get_color = g.turn)
    (hguards : can_move_hyp g g.board c n = some true)
    (hk : locate_kings (boardSet (boardDel g.board c) n p) = some (wk, bk)) :
    g.can_make_move g.board c n false = some false ↔
      ∃ e ∈ boardSet (boardDel g.board c) n p,
        (e.2.get_color = Color.b ∧
          can_move_hyp g (boardSet (boardDel g.board c) n p) e.1 wk = some true) ∨
        (e.2.get_color = Color.w ∧
          can_move_hyp g (boardSet (boardDel g.board c) n p) e.1 bk = some true) := by
  obtain ⟨hs, hgc⟩ := can_move_hyp_parts hp hguards
  have hwfn : wfSquare n = true := wfSquare_of_valid (guard_checks_valid_square hgc)
  have hwfhyp : wfBoard (boardSet (boardDel g.board c) n p) = true := by
    unfold wfBoard
    rw [List.all_eq_true]
    intro e he
    rcases mem_boardSet he with h1 | h1
    · rw [h1]
      exact hwfn
    · exact wfBoard_mem hwfb (mem_boardDel h1)
  obtain ⟨hkw, hkb⟩ := locate_kings_keys hk
  have hwfwk : wfSquare wk = true := by
    obtain ⟨q, hq⟩ := hkw
    exact wfBoard_mem hwfhyp hq
  have hwfbk : wfSquare bk = true := by
    obtain ⟨q, hq⟩ := hkb
    exact wfBoard_mem hwfhyp hq
  obtain ⟨r, hr⟩ :=
    check_scan_some (g := g) hwfhyp hwfwk hwfbk (boardSet (boardDel g.board c) n p)
  have hric : results_in_check g c n = some r := by
    unfold results_in_check
    rw [hp]
    dsimp only
    rw [hk]
    dsimp only
    exact hr
  have hreal : g.can_make_move g.board c n false =
      (if r = true then some false else some true) := by
    unfold ChessVar.can_make_move
    rw [hp]
    dsimp only
    rw [if_neg (by simp [hs]), if_neg (by simp [hturn]), hgc]
    dsimp only
    rw [if_neg (by simp), if_pos rfl, hric]
  rw [hreal, ← check_scan_true_iff (g := g) hwfhyp hwfwk hwfbk
    (boardSet (boardDel g.board c) n p), hr]
  cases r <;> simp

/-- C1 (claim): for a move evaluated in real mode on an in-progress game
whose prior guards (piece present, turn ownership, destination validity,
shape, capture, path) all pass, the move is rejected exactly when, on the
hypothetical board obtained by deleting the source entry and writing the
moving piece at the destination, some piece of either color can reach the
opposing king square under hypothetical-mode legality — a black piece
reaching the white king square or a white piece reaching the black king
square each cause rejection. -/
theorem move_rejected_iff_check :
    ∀ (g : ChessVar) (p : Piece) (wk bk c n : String),
      wfBoard g.board = true →
      boardGet g.board c = some p →
      p.get_color = g.turn →
      can_move_hyp g g.board c n = some true →
      locate_kings (boardSet (boardDel g.board c) n p) = some (wk, bk) →
      (g.can_make_move g.board c n false = some false ↔
        ∃ e ∈ boardSet (boardDel g.board c) n p,
          (e.2.get_color = Color.b ∧
            can_move_hyp g (boardSet (boardDel g.board c) n p) e.1 wk = some true) ∨
          (e.2.get_color = Color.w ∧
            can_move_hyp g (boardSet (boardDel g.board c) n p) e.1 bk = some true)) :=
  fun _ _ _ _ _ _ h1 h2 h3 h4 h5 => check_rejection_core h1 h2 h3 h4 h5

/-- Witness for C1: the opening knight move c1 to d3 on the default
position; the kings of the hypothetical board stand on a1 and h1, no piece
reaches either, and the move is accepted. -/
theorem move_rejected_iff_check_witness :
    ChessVar.init.can_make_move ChessVar.init.board "c1" "d3" false = some false ↔
      ∃ e ∈ boardSet (boardDel ChessVar.init.board "c1") "d3" ⟨PieceKind.knight, Color.w⟩,
        (e.2.get_color = Color.b ∧
          can_move_hyp ChessVar.init
            (boardSet (boardDel ChessVar.init.board "c1") "d3" ⟨PieceKind.knight, Color.w⟩)
            e.1 "a1" = some true) ∨
        (e.2.get_color = Color.w ∧
          can_move_hyp ChessVar.init
            (boardSet (boardDel ChessVar.init.board "c1") "d3" ⟨PieceKind.knight, Color.w⟩)
            e.1 "h1" = some true) :=
  move_rejected_iff_check ChessVar.init ⟨PieceKind.knight, Color.w⟩ "a1" "h1" "c1" "d3"
    (by decide) (by decide) (by decide) (by decide) (by decide)

theorem toNat_ofNat_valid {m : Nat} (h : m < 55296) : (Char.ofNat m).toNat = m := by
  have hv : m.isValidChar := Or.inl h
  rw [Char.ofNat, dif_pos hv]
  rfl

theorem idx_mkSq_zero (f r : Nat) : idx (mkSq f r) 0 = some (Char.ofNat f) := rfl

theorem idx_mkSq_one (f r : Nat) : idx (mkSq f r) 1 = some (digitChar r) := rfl

theorem pyOrd_ofNat {f : Nat} (h : f < 55296) : pyOrd (Char.ofNat f) = f :=
  toNat_ofNat_valid h

theorem pyInt_digitChar {r : Nat} (h : r ≤ 9) : pyInt (digitChar r) = some r := by
  unfold pyInt digitChar
  have ht : (Char.ofNat (48 + r)).toNat = 48 + r := toNat_ofNat_valid (by omega)
  rw [ht, if_pos (by omega)]
  exact congrArg some (by omega)

theorem adiff_eq_zero {a b : Nat} : adiff a b = 0 ↔ a = b := by
  unfold adiff
  omega

/-- The mutator `make_move` propagates the exception of `is_valid_square` on a malformed
destination string whenever the earlier guards pass: the call raises rather
than returning `False`. -/
theorem make_move_raises_on_bad_square {g : ChessVar} {c n : String} {p : Piece}
    (hs : g.state = GState.UNFINISHED)
    (hp : boardGet g.board c = some p)
    (hturn : p.get_color = g.turn)
    (hn : g.is_valid_square n = none) :
    g.make_move c n = none := by
  have hcan : g.can_make_move g.board c n false = none := by
    unfold ChessVar.can_make_move
    rw [hp]
    dsimp only
    rw [if_neg (by simp [hs]), if_neg (by simp [hturn])]
    have hgc : guard_checks g g.board p c n = none := by
      unfold guard_checks
      rw [hn]
    rw [hgc]
  unfold ChessVar.make_move
  rw [hcan]

/-- Counterexample for C4 as stated: on the default position, `make_move`
from a1 to the malformed string "aa" raises a `ValueError` inside
`is_valid_square` (the rank test runs `int` on the letter a) instead of
terminating normally with `False`; the embedding records the exception as
`none`. -/
theorem make_move_malformed_counterexample :
    ChessVar.make_move ChessVar.init "a1" "aa" = none ∧
    ChessVar.init.is_valid_square "aa" = none :=
  ⟨by decide, by decide⟩

/-- C4 (amended claim): `make_move` does not survive arbitrary malformed
text: whenever the guards before the destination test pass and the
destination string makes `is_valid_square` raise (too short, or an in-range
file letter followed by a non-digit), the whole call raises instead of
returning `False`.  What does hold is rejection atomicity: every call that
does return `False` leaves the session exactly unchanged.  (Format
validation lives in the UI layer `valid_entry`, not in the engine.) -/
theorem make_move_malformed_text :
    (∀ (g : ChessVar) (c n : String) (p : Piece),
        g.state = GState.UNFINISHED → boardGet g.board c = some p →
        p.get_color = g.turn → g.is_valid_square n = none →
        g.make_move c n = none) ∧
    (∀ (g : ChessVar) (c n : String) (g2 : ChessVar),
        g.make_move c n = some (false, g2) → g2 = g) :=
  ⟨fun _ _ _ _ hs hp ht hn => make_move_raises_on_bad_square hs hp ht hn,
   fun _ _ _ _ h => make_move_false_frame h⟩

/-- Witness for C4 (amended) at concrete inputs: the white king on a1 may
move, "aa" fails to parse, and the call raises; a parseable but illegal
destination is instead rejected without mutation. -/
theorem make_move_malformed_text_witness :
    ChessVar.make_move ChessVar.init "a1" "aa" = none ∧ ChessVar.init = ChessVar.init :=
  ⟨make_move_malformed_text.1 ChessVar.init "a1" "aa" ⟨PieceKind.king, Color.w⟩
      (by decide) (by decide) (by decide) (by decide),
   make_move_malformed_text.2 ChessVar.init "a1" "a3" ChessVar.init (by decide)⟩

/-- Counterexample for C6 as stated: the Bishop shape predicate accepts the
zero-displacement move c1 to c1 although both deltas are zero — the source
only compares the two absolute deltas and has no nonzero requirement. -/
theorem bishop_shape_counterexample :
    bishopValidMove "c1" "c1" = some true ∧ adiff (pyOrd 'c') (pyOrd 'c') = 0 :=
  ⟨by decide, by decide⟩

/-- C6 (amended claim): over rendered squares (letter file, digit rank) the
Bishop shape predicate holds exactly when the absolute file delta equals the
absolute rank delta — the zero displacement included.  The null move is
instead rejected later by the rules engine friendly-capture check. -/
theorem bishop_shape_iff :
    ∀ (f1 r1 f2 r2 : Nat),
      97 ≤ f1 → f1 ≤ 104 → 97 ≤ f2 → f2 ≤ 104 → r1 ≤ 9 → r2 ≤ 9 →
      (bishopValidMove (mkSq f1 r1) (mkSq f2 r2) = some true ↔
        adiff f1 f2 = adiff r1 r2) := by
  intro f1 r1 f2 r2 hf1 hf1b hf2 hf2b hr1 hr2
  have hord1 : pyOrd (Char.ofNat f1) = f1 := pyOrd_ofNat (by omega)
  have hord2 : pyOrd (Char.ofNat f2) = f2 := pyOrd_ofNat (by omega)
  simp only [bishopValidMove, idx_mkSq_zero, idx_mkSq_one, pyInt_digitChar hr1,
    pyInt_digitChar hr2, hord1, hord2]
  by_cases hd : adiff f1 f2 = adiff r1 r2
  · rw [if_neg (not_not_intro hd)]
    simp [hd]
  · rw [if_pos hd]
    simp [hd]

/-- Witness for C6 (amended): b2 to d4 is a two-by-two diagonal move and the
Bishop shape predicate accepts it. -/
theorem bishop_shape_iff_witness :
    bishopValidMove (mkSq 98 2) (mkSq 100 4) = some true ↔ adiff 98 100 = adiff 2 4 :=
  bishop_shape_iff 98 2 100 4 (by decide) (by decide) (by decide) (by decide)
    (by decide) (by decide)

theorem map_pyRange (f : Nat → α) (a b : Nat) :
    (pyRange a b).map f = (List.range (b - a)).map (fun i => f (a + i)) := by
  unfold pyRange
  rw [List.map_map]
  rfl

theorem map_pyRange_reverse (f : Nat → α) (a b : Nat) :
    ((pyRange a b).map f).reverse = (List.range (b - a)).map (fun i => f (b - 1 - i)) := by
  apply List.ext_getElem
  · simp [pyRange]
  · intro i h1 h2
    simp only [List.length_reverse, List.length_map, pyRange, List.length_range] at h1 h2 ⊢
    simp only [List.getElem_reverse, List.getElem_map, List.getElem_range,
      List.length_map, List.length_range]
    exact congrArg f (by omega)

/-- Counterexample for C5 as stated: walking from a5 toward a1 would visit
a4, a3, a2 in that order, but the rank-aligned branch of
`get_squares_between` always ascends, so the call returns a2, a3, a4. -/
theorem squares_between_order_counterexample :
    get_squares_between "a5" "a1" ≠ some ["a4", "a3", "a2"] ∧
    get_squares_between "a5" "a1" = some ["a2", "a3", "a4"] :=
  ⟨by decide, by decide⟩

/-- C5 (amended claim): for distinct rendered on-board squares,
`get_squares_between` returns the empty sequence when the squares share no
rank, file or diagonal; when aligned it returns exactly the squares strictly
between them, of length `max (adiff file) (adiff rank) - 1`; diagonal paths
are ordered walking from the first square toward the second, but file-aligned
and rank-aligned paths are always in ascending coordinate order, regardless
of the direction of travel. -/
theorem squares_between_spec :
    ∀ (f1 r1 f2 r2 : Nat),
      97 ≤ f1 → f1 ≤ 104 → 97 ≤ f2 → f2 ≤ 104 →
      1 ≤ r1 → r1 ≤ 8 → 1 ≤ r2 → r2 ≤ 8 → ¬(f1 = f2 ∧ r1 = r2) →
      get_squares_between (mkSq f1 r1) (mkSq f2 r2) = some (sbPath f1 r1 f2 r2) ∧
      (sbPath f1 r1 f2 r2).length =
        (if f1 = f2 ∨ r1 = r2 ∨ adiff f1 f2 = adiff r1 r2
          then max (adiff f1 f2) (adiff r1 r2) - 1 else 0) := by
  intro f1 r1 f2 r2 hf1 hf1b hf2 hf2b hr1a hr1b hr2a hr2b hne
  have hord1 : pyOrd (Char.ofNat f1) = f1 := pyOrd_ofNat (by omega)
  have hord2 : pyOrd (Char.ofNat f2) = f2 := pyOrd_ofNat (by omega)
  have hpy1 : pyInt (digitChar r1) = some r1 := pyInt_digitChar (by omega)
  have hpy2 : pyInt (digitChar r2) = some r2 := pyInt_digitChar (by omega)
  constructor
  · simp only [get_squares_between, idx_mkSq_zero, idx_mkSq_one, hord1, hord2, hpy1, hpy2]
    unfold sbPath
    by_cases hA : f1 = f2
    · rw [if_pos (adiff_eq_zero.mpr hA), if_pos hA]
      subst hA
      congr 1
      rw [map_pyRange]
      have harg : max r1 r2 - (min r1 r2 + 1) = adiff r1 r2 - 1 := by unfold adiff; omega
      rw [harg]
      rfl
    · rw [if_neg (fun hcon => hA (adiff_eq_zero.mp hcon)), if_neg hA]
      by_cases hB : r1 = r2
      · rw [if_pos (adiff_eq_zero.mpr hB), if_pos hB]
        subst hB
        congr 1
        rw [map_pyRange]
        have harg : max f1 f2 - (min f1 f2 + 1) = adiff f1 f2 - 1 := by unfold adiff; omega
        rw [harg]
        rfl
      · rw [if_neg (fun hcon => hB (adiff_eq_zero.mp hcon)), if_neg hB]
        by_cases hC : adiff f1 f2 = adiff r1 r2
        · rw [if_pos hC, if_pos hC]
          congr 1
          have hDf : max f1 f2 - (min f1 f2 + 1) = adiff f1 f2 - 1 := by unfold adiff; omega
          have hDr : max r1 r2 - (min r1 r2 + 1) = adiff r1 r2 - 1 := by unfold adiff; omega
          have hAne : f1 ≠ f2 := hA
          have hBne : r1 ≠ r2 := hB
          have hchars :
              (if f2 < f1 then ((pyRange (min f1 f2 + 1) (max f1 f2)).map Char.ofNat).reverse
                else (pyRange (min f1 f2 + 1) (max f1 f2)).map Char.ofNat) =
              (List.range (adiff f1 f2 - 1)).map
                (fun i => Char.ofNat (if f1 ≤ f2 then f1 + 1 + i else f1 - 1 - i)) := by
            by_cases hdir : f2 < f1
            · rw [if_pos hdir, map_pyRange_reverse, hDf]
              apply List.map_congr_left
              intro i hi
              rw [List.mem_range] at hi
              exact congrArg Char.ofNat (by rw [if_neg (by omega)]; unfold adiff at *; omega)
            · rw [if_neg hdir, map_pyRange, hDf]
              apply List.map_congr_left
              intro i hi
              rw [List.mem_range] at hi
              exact congrArg Char.ofNat (by rw [if_pos (by omega)]; unfold adiff at *; omega)
          have hnums :
              (if r2 < r1 then ((pyRange (min r1 r2 + 1) (max r1 r2)).map digitChar).reverse
                else (pyRange (min r1 r2 + 1) (max r1 r2)).map digitChar) =
              (List.range (adiff f1 f2 - 1)).map
                (fun i => digitChar (if r1 ≤ r2 then r1 + 1 + i else r1 - 1 - i)) := by
            by_cases hdir : r2 < r1
            · rw [if_pos hdir, map_pyRange_reverse, hDr, hC]
              apply List.map_congr_left
              intro i hi
              rw [List.mem_range] at hi
              exact congrArg digitChar (by rw [if_neg (by omega)]; unfold adiff at *; omega)
            · rw [if_neg hdir, map_pyRange, hDr, hC]
              apply List.map_congr_left
              intro i hi
              rw [List.mem_range] at hi
              exact congrArg digitChar (by rw [if_pos (by omega)]; unfold adiff at *; omega)
          rw [hchars, hnums, List.zipWith_map, List.zipWith_same]
          rfl
        · rw [if_neg hC, if_neg hC]
  · unfold sbPath
    by_cases hA : f1 = f2
    · rw [if_pos hA, if_pos (Or.inl hA)]
      simp only [List.length_map, List.length_range]
      subst hA
      unfold adiff
      omega
    · rw [if_neg hA]
      by_cases hB : r1 = r2
      · rw [if_pos hB, if_pos (Or.inr (Or.inl hB))]
        simp only [List.length_map, List.length_range]
        subst hB
        unfold adiff
        omega
      · rw [if_neg hB]
        by_cases hC : adiff f1 f2 = adiff r1 r2
        · rw [if_pos hC, if_pos (Or.inr (Or.inr hC))]
          simp only [List.length_map, List.length_range]
          unfold adiff at *
          omega
        · rw [if_neg hC, if_neg (by simp [hA, hB, hC])]
          rfl

/-- Witness for C5 (amended) on the descending diagonal e5 to b2: the path
comes back d4, c3 — from the first square toward the second — and has length
two. -/
theorem squares_between_spec_witness :
    get_squares_between (mkSq 101 5) (mkSq 98 2) = some (sbPath 101 5 98 2) ∧
    (sbPath 101 5 98 2).length =
      (if 101 = 98 ∨ 5 = 2 ∨ adiff 101 98 = adiff 5 2
        then max (adiff 101 98) (adiff 5 2) - 1 else 0) :=
  squares_between_spec 101 5 98 2 (by decide) (by decide) (by decide) (by decide)
    (by decide) (by decide) (by decide) (by decide) (by decide)

end ChessVariant
